import Mathlib

/-!
# Verification of the G4 recording-to-workflow compiler

This file is a shallow embedding of the recording compiler found in
`src/commands/stop-recorder.ts` (class `StopRecorderCommand`) together with the
connection model of `g4-signalr-client.ts` (`EventCaptureService`).

Modelling conventions:
* JavaScript numbers that hold integer millisecond timestamps are modelled as
  `Int` (all arithmetic the code performs on them — subtraction, comparison,
  `Math.min` — is exact on integers in the double range).
* `undefined` / `null`-able fields are modelled as `Option _`; JavaScript
  truthiness tests such as `x || y` on those fields become `Option.getD`.
* Case-insensitive regular-expression tests of the form `s.match(/pat/i)`
  where `pat` is a plain word are modelled as case-insensitive substring
  containment.
* The think-time label `Number((duration / 1000).toFixed(2))` is modelled
  exactly over IEEE 754 binary64: the division's quotient is rounded to the
  nearest double (ties to even) before `toFixed`'s own rounding is applied to
  that double's exact value (ties to the larger count of hundredths).
* `Array.prototype.sort` with the comparator `(a, b) => a.timestamp - b.timestamp`
  is a stable sort (ECMAScript 2019); it is modelled by `List.insertionSort`
  with the relation `a.timestamp ≤ b.timestamp`, which is the unique stable
  sort for that comparator.
* The two `while` loops of `newJob` / `resolveKeyboardEvent` are modelled as
  fuel-indexed recursions returning `Option`; one unit of fuel corresponds to
  one iteration of the corresponding JavaScript loop, so `none` for every fuel
  value means the loop never exits.
-/

namespace G4

/-- ASCII lowercasing, character by character — semantically
`String.toLower` (which maps `Char.toLower` over the characters), stated on
the underlying character list so that it reduces in the kernel. -/
def toLowerStr (s : String) : String := String.mk (s.data.map Char.toLower)

/-- `s.split(' ')[0]`: the characters before the first space (the whole
string when it has no space, the empty string when it starts with one). -/
def splitHead (s : String) : String := String.mk (s.data.takeWhile (fun c => c ≠ ' '))

/-- Case-insensitive substring containment: model of `s.match(/pat/i)` for a
plain-word pattern `pat` (the only regex shapes the recorder uses, besides the
anchored `/^space$/i` which is modelled by a lowercase equality test). -/
def matchCI (pat s : String) : Bool :=
  decide (List.IsInfix (toLowerStr pat).data (toLowerStr s).data)

/-- Render an optional integer the way a JavaScript template literal renders a
possibly-`undefined` number. -/
def showOptInt : Option Int → String
  | none => "undefined"
  | some n => toString n

/-- Render an optional string the way JavaScript string concatenation renders a
possibly-`null` value. -/
def showOptStr : Option String → String
  | none => "null"
  | some s => s

/-- `element.bounds` of a UI-ancestor-chain node; every field may be absent
(`{}` is modelled by all-`none`). Only used to derive the diagnostic id. -/
structure Bounds where
  height : Option Int := none
  X : Option Int := none
  Y : Option Int := none
  width : Option Int := none
deriving DecidableEq, Repr

/-- One node of `event.value.chain.path`. -/
structure UiElement where
  bounds : Option Bounds := none
deriving DecidableEq, Repr

/-- `event.value.chain`. -/
structure Chain where
  locator : Option String := none
  path : List UiElement := []
deriving DecidableEq, Repr

/-- `event.value.value` — the key / coordinate payload. -/
structure KeyVal where
  key : Option String := none
  x : Option Int := none
  y : Option Int := none
deriving DecidableEq, Repr

/-- `event.value` — the semantic body of a captured event. The `event` string
(e.g. `"keyup"`, `"left up"`) is accessed without optional chaining on
`.match`, so it is modelled as always present. -/
structure EvtValue where
  event : String
  type : Option String := none
  machineName : String := ""
  timestamp : Option Int := none
  chain : Option Chain := none
  value : Option KeyVal := none
deriving DecidableEq, Repr

/-- One buffered wire message as stored by `EventCaptureService._buffer`, plus
the `baseUrl` tag that `onInvokeCommand` spreads onto it at merge time (raw
buffer items carry `none`). The top-level `timestamp` is the field used by the
sort comparator and by `getFirstCaptureService`. -/
structure Evt where
  timestamp : Int
  value : EvtValue
  baseUrl : Option String := none
deriving DecidableEq, Repr

instance : Inhabited Evt := ⟨{ timestamp := 0, value := { event := "" } }⟩

/-- Result shape of `assertEvent`. -/
structure NormalizedEvent where
  id : String
  bounds : Bounds
  event : Evt
  locator : Option String
deriving DecidableEq, Repr

/-- The geometry id string `` `${bounds.height};${bounds.X};${bounds.Y};${bounds.width}` ``. -/
def boundsId (b : Bounds) : String :=
  showOptInt b.height ++ ";" ++ showOptInt b.X ++ ";" ++ showOptInt b.Y ++ ";" ++
    showOptInt b.width

/-- `StopRecorderCommand.assertEvent`: filters a (possibly `undefined`)
buffered event down to a normalized release event with a resolvable trigger
element, rejecting recorder-UI events, `down` events, non-`up` events and
events without a trigger element. -/
def assertEvent : Option Evt → Option NormalizedEvent
  | none => none
  | some e =>
    let locator := e.value.chain.bind (·.locator)
    let isRecorder := (locator.map (matchCI "Extension Development Host")).getD false
    if isRecorder then none
    else if matchCI "down" e.value.event then none
    else if ¬ matchCI "up" e.value.event then none
    else
      -- `path.at(-1) ?? null`, with `path := event?.value?.chain?.path || []`
      match ((e.value.chain.map (·.path)).getD []).getLast? with
      | none => none
      | some element =>
        some { id := boundsId (element.bounds.getD {}),
               bounds := element.bounds.getD {}, event := e, locator := locator }

/-- `context` of a rule: coordinates and originating timestamp. -/
structure RuleContext where
  x : Option Int := none
  y : Option Int := none
  timestamp : Option Int := none
deriving DecidableEq, Repr

/-- `capabilities` of a rule (only `displayName` is ever set, by the think-time
post-pass). -/
structure Capabilities where
  displayName : Option String := none
deriving DecidableEq, Repr

/-- One automation rule (`$type: 'Action'` object). -/
structure Rule where
  pluginName : String
  onElement : Option String := none
  argument : Option String := none
  context : Option RuleContext := none
  capabilities : Option Capabilities := none
deriving DecidableEq, Repr

/-- The fixed session-close rule appended as the last rule of every job. -/
def closeBrowserRule : Rule := { pluginName := "CloseBrowser" }

/-- `StopRecorderCommand._includeKeyboardEventMap`: the allow-list of named /
special keys, as an association list (insertion order of the source `Map`). -/
def includeKeyboardEventMap : List (String × String) :=
  [("backspace", "Backspace"), ("caps lock", "Caps Lock"), ("delete", "Delete"),
   ("down", "Down"), ("end", "End"), ("enter", "Enter"), ("esc", "Esc"),
   ("f1", "F1"), ("f2", "F2"), ("f3", "F3"), ("f4", "F4"), ("f5", "F5"),
   ("f6", "F6"), ("f7", "F7"), ("f8", "F8"), ("f9", "F9"), ("f10", "F10"),
   ("f11", "F11"), ("f12", "F12"), ("home", "Home"), ("insert", "Insert"),
   ("left", "Left"), ("num del", "Num Del"), ("num lock", "Num Lock"),
   ("page down", "Page Down"), ("page up", "Page Up"), ("pause", "Pause"),
   ("prnt scrn", "Prnt Scrn"), ("right", "Right"), ("scroll lock", "Scroll Lock"),
   ("tab", "Tab"), ("up", "Up")]

/-- `Map.get` on an association list (`none` models a missing entry). -/
def mapGet (m : List (String × String)) (k : String) : Option String :=
  (m.find? (fun p => p.1 = k)).map (·.2)

/-- `StopRecorderCommand.resolveMouseEvent`: translates one mouse release event
into a click rule; an unknown button class degrades to the `'None'` marker.
The code reads `event?.value?.x` / `event?.value?.y` for the context, fields
that do not exist on the event body, so the context coordinates are always
absent. -/
def resolveMouseEvent (mode : String) (e : Evt) : Rule :=
  let mouseEventMap : List (String × String) :=
    [("left", if mode = "standard" then "InvokeClick" else "InvokeUser32Click"),
     ("middle", if mode = "standard" then "InvokeMiddleClick" else "InvokeUser32MiddleClick"),
     ("right", if mode = "standard" then "InvokeContextClick" else "InvokeUser32ContextClick")]
  let mouseEventType := toLowerStr (splitHead e.value.event)
  let rule : Rule :=
    { pluginName := (mapGet mouseEventMap mouseEventType).getD "None",
      onElement := e.value.chain.bind (·.locator),
      context := some { timestamp := e.value.timestamp } }
  if mode = "coordinate" then
    { rule with
        onElement := none,
        argument := some ("\x7b\x7b$ --X:" ++ showOptInt (e.value.value.bind (·.x)) ++
          " --Y:" ++ showOptInt (e.value.value.bind (·.y)) ++ "\x7d\x7d") }
  else rule

/-- `StopRecorderCommand.resolveKeyboardKey`: result pair — the resolved
special-key name (or `none`) together with the dedicated single-key rule. -/
structure ResolvedKey where
  resolved : Option String
  rule : Rule
deriving DecidableEq, Repr

/-- `StopRecorderCommand.resolveKeyboardKey`. -/
def resolveKeyboardKey (mode : String) (e : Evt)
    (map : List (String × String)) : ResolvedKey :=
  let key := toLowerStr ((e.value.value.bind (·.key)).getD "")
  let resolved := mapGet map key
  { resolved := resolved,
    rule :=
      { pluginName := if mode = "standard" then "SendKeyboardKey" else "SendUser32KeyboardKey",
        onElement := if mode = "coordinate" then none else e.value.chain.bind (·.locator),
        argument := some ("\x7b\x7b$ --Key:" ++ showOptStr resolved ++ "\x7d\x7d"),
        context := some { timestamp := e.value.timestamp } } }

/-- The `newKeyboardRule` closure inside `resolveKeyboardEvent`: builds either
a single-key rule (`isKeyboard = true`) or a type-sequence rule. -/
def newKeyboardRule (mode keys : String) (e : Evt) (isKeyboard : Bool) : Rule :=
  let keysAction := if mode = "standard" then "SendKeys" else "SendUser32Keys"
  let keyboardAction := if mode = "standard" then "SendKeyboardKey" else "SendUser32KeyboardKey"
  let parameter := if isKeyboard then "Key" else "Keys"
  let pluginName := if isKeyboard then keyboardAction else keysAction
  { pluginName := pluginName,
    onElement := if mode = "coordinate" then none else e.value.chain.bind (·.locator),
    argument := some ("\x7b\x7b$ --" ++ parameter ++ ":" ++ keys ++ "\x7d\x7d"),
    context := some { timestamp := e.value.timestamp } }

/-- The raw key payload of a buffered event (`event?.value?.value?.key || ''`). -/
def rawKey (e : Evt) : String :=
  (e.value.value.bind (·.key)).getD ""

/-- Whether the event at the head of the buffer is still a keyboard event
(`buffer?.[0]?.value?.type?.match(/keyboard/i)`). -/
def peekIsKeyboard (buffer : List Evt) : Bool :=
  ((buffer.head?.bind (·.value.type)).map (matchCI "keyboard")).getD false

/-- The `while (isKeyboard)` loop body of `resolveKeyboardEvent`, as a
fuel-indexed recursion. One unit of fuel is one iteration of the source loop;
the loop-exit check costs no fuel, so a result of `none` for every fuel value
means the source loop never exits. Returns the produced rules together with
the remaining (unconsumed) buffer. -/
def keyboardScanLoop (mode : String) (map : List (String × String)) :
    Nat → Evt → List String → List Rule → List Evt → Bool →
    Option (List Rule × List Evt)
  | _, event, keysBuffer, rules, buffer, false =>
    -- Loop exit: combine all buffered keys into one type-sequence rule.
    let keys := String.join (keysBuffer.filter (· ≠ ""))
    some (newKeyboardRule mode keys event false :: rules, buffer)
  | 0, _, _, _, _, true => none
  | fuel + 1, event, keysBuffer, rules, buffer, true =>
    -- `event = StopRecorderCommand.assertEvent(buffer.shift())?.event`
    let shifted := buffer.head?
    let buffer' := buffer.tail
    match assertEvent shifted with
    | none =>
      -- `if (!event) { continue; }` — `isKeyboard` is left unchanged.
      keyboardScanLoop mode map fuel event keysBuffer rules buffer' true
    | some n =>
      let e := n.event
      let key0 := rawKey e
      -- Space is normalized to a literal space character.
      let key := if toLowerStr key0 = "space" then " " else key0
      let keyboardKey := resolveKeyboardKey mode e map
      if keyboardKey.resolved.isSome then
        -- Special key: push its dedicated rule, close out the buffer and return.
        let rules' := rules ++ [keyboardKey.rule]
        let isLength : Bool := keysBuffer.length = 1
        let isEntry : Bool := (mapGet map (toLowerStr (keysBuffer.headD ""))).isSome
        let isSingleSpecialKey := isLength && isEntry
        let keys := if isSingleSpecialKey then keysBuffer.headD ""
          else String.join (keysBuffer.filter (· ≠ ""))
        let keysRule := newKeyboardRule mode keys e isSingleSpecialKey
        some (keysRule :: rules', buffer')
      else if key.length > 1 then
        -- Unrecognized multi-character key: drop it and continue.
        keyboardScanLoop mode map fuel e keysBuffer rules buffer' true
      else
        keyboardScanLoop mode map fuel e (keysBuffer ++ [key]) rules buffer'
          (peekIsKeyboard buffer')

/-- `StopRecorderCommand.resolveKeyboardEvent` (fuel-indexed): seeds the key
buffer with the initiating event's key and runs the consecutive-keyboard scan. -/
def resolveKeyboardEvent (mode : String) (map : List (String × String))
    (fuel : Nat) (event : Evt) (buffer : List Evt) :
    Option (List Rule × List Evt) :=
  let keysBuffer := [rawKey event]
  let isKeyboard := ((event.value.type).map (matchCI "keyboard")).getD false
  keyboardScanLoop mode map fuel event keysBuffer [] buffer isKeyboard

/-! ## Think-time synthesis (`addThinkTime` closure inside `newJob`) -/

/-- Floor of the binary logarithm (fuel-indexed so it reduces in the kernel;
the fuel `n` always suffices since `log2 n ≤ n`). -/
def natLog2Go : Nat → Nat → Nat
  | 0, _ => 0
  | fuel + 1, n => if 2 ≤ n then natLog2Go fuel (n / 2) + 1 else 0

/-- `Nat.log2`, kernel-reducible. -/
def natLog2 (n : Nat) : Nat := natLog2Go n n

/-- The binary exponent of `N / 1000` for `N ≥ 1`: the unique `E` with
`2 ^ E ≤ N / 1000 < 2 ^ (E + 1)`. Since `2 ^ 9 ≤ 1000 < 2 ^ 10`, it is
`log2 N - 9`, corrected down by one when that power of two overshoots. -/
def divThousandExp (N : Nat) : Int :=
  if 0 ≤ ((natLog2 N : Int) - 9) then
    (if 1000 * 2 ^ ((natLog2 N : Int) - 9).toNat ≤ N
      then (natLog2 N : Int) - 9 else (natLog2 N : Int) - 10)
  else
    (if 1000 ≤ N * 2 ^ (-((natLog2 N : Int) - 9)).toNat
      then (natLog2 N : Int) - 9 else (natLog2 N : Int) - 10)

/-- The fraction `N * 2 ^ s / 1000` as an exact numerator / denominator
pair (`s` may be negative). -/
def scaledByThousand (N : Nat) (s : Int) : Nat × Nat :=
  if 0 ≤ s then (N * 2 ^ s.toNat, 1000) else (N, 1000 * 2 ^ (-s).toNat)

/-- `p / q` rounded to the nearest integer, ties to even — the IEEE 754
round-to-nearest-even of a positive quotient. -/
def roundTiesEven (p q : Nat) : Nat :=
  if 2 * (p % q) < q then p / q
  else if q < 2 * (p % q) then p / q + 1
  else if p / q % 2 = 0 then p / q else p / q + 1

/-- `⌊100 * x + 1/2⌋` for `x = m * 2 ^ (E - 52)` — the ECMAScript `toFixed(2)`
choice of hundredths (`n / 100` closest to `x`, ties to the larger `n`)
applied to the exact value of the rounded double. -/
def centiHalfUp (m : Nat) (E : Int) : Nat :=
  if E ≤ 52 then (200 * m + 2 ^ (52 - E).toNat) / 2 ^ ((52 - E).toNat + 1)
  else 100 * m * 2 ^ (E - 52).toNat

/-- Model of `Number((duration / 1000).toFixed(2))`, expressed in
centiseconds, following the IEEE 754 binary64 semantics the program runs on:
the integer `duration` is an exact double (exact for `|duration| ≤ 2 ^ 53`,
the range in which the surrounding integer timestamp arithmetic is modelled),
the division by 1000 rounds the exact quotient to the nearest binary64 value
(ties to even on the 53-bit significand), and `toFixed(2)` picks the count of
hundredths closest to that double's exact value, ties toward the larger count,
on the magnitude with the sign reapplied (ECMAScript
`Number.prototype.toFixed`). Hence e.g. 15 ms ↦ 1 (label `0.01`) and
1005 ms ↦ 100 (label `1`), matching the doubles `0.0149999…` and `1.00499…`. -/
def toFixed2Centis (d : Int) : Int :=
  if d.natAbs = 0 then 0
  else
    if d < 0 then
      -(centiHalfUp
        (roundTiesEven
          (scaledByThousand d.natAbs (52 - divThousandExp d.natAbs)).1
          (scaledByThousand d.natAbs (52 - divThousandExp d.natAbs)).2)
        (divThousandExp d.natAbs) : Int)
    else
      (centiHalfUp
        (roundTiesEven
          (scaledByThousand d.natAbs (52 - divThousandExp d.natAbs)).1
          (scaledByThousand d.natAbs (52 - divThousandExp d.natAbs)).2)
        (divThousandExp d.natAbs) : Int)

/-- JavaScript rendering of the number `c / 100` in a template literal:
trailing zeros (and a trailing decimal point) are not printed. -/
def renderCentis (c : Int) : String :=
  let sign := if c < 0 then "-" else ""
  let n := c.natAbs
  let ip := n / 100
  let fr := n % 100
  if fr = 0 then sign ++ toString ip
  else if fr % 10 = 0 then sign ++ toString ip ++ "." ++ toString (fr / 10)
  else if fr < 10 then sign ++ toString ip ++ ".0" ++ toString fr
  else sign ++ toString ip ++ "." ++ toString fr

/-- The synthetic `WaitFlow` rule inserted for a gap of `duration`
milliseconds: its display name carries `Number((duration / 1000).toFixed(2))`
— the binary64 `toFixed` rounding of `toFixed2Centis`, rendered without
trailing zeros by `renderCentis`. -/
def mkWaitRule (duration : Int) : Rule :=
  { pluginName := "WaitFlow",
    argument := some ("\x7b\x7b$ --Timeout:" ++ toString duration ++ "\x7d\x7d"),
    capabilities := some
      { displayName := some
          ("Think Time (" ++ renderCentis (toFixed2Centis duration) ++ " seconds)") } }

/-- The per-pair body of the `addThinkTime` loop: the wait rules (zero or one)
inserted between the consecutive rules `cur` and `next`. A pair is skipped
when either rule lacks a numeric `context.timestamp`
(`Number(undefined)` is `NaN`, which is not finite). -/
def waitOpt (minThinkTime maxThinkTime : Int) (cur next : Rule) : List Rule :=
  match cur.context.bind (·.timestamp), next.context.bind (·.timestamp) with
  | some t1, some t2 =>
    let delta := t2 - t1
    if delta > minThinkTime then [mkWaitRule (min delta maxThinkTime)] else []
  | _, _ => []

/-- Recursive rendering of the `addThinkTime` index loop: emit each rule and
the waits for each adjacent pair, ending with the final rule unchanged. -/
def thinkChain (minThinkTime maxThinkTime : Int) : Rule → List Rule → List Rule
  | x, [] => [x]
  | x, y :: ys =>
    x :: (waitOpt minThinkTime maxThinkTime x y ++ thinkChain minThinkTime maxThinkTime y ys)

/-- The `addThinkTime` closure of `newJob`: a post-pass over the finished rule
list inserting `WaitFlow` rules between adjacent rule pairs (lists shorter
than two rules are returned as a copy). -/
def addThinkTime (rules : List Rule) (minThinkTime maxThinkTime : Int) : List Rule :=
  match rules with
  | [] => []
  | [r] => [r]
  | x :: y :: rest => thinkChain minThinkTime maxThinkTime x (y :: rest)

/-! ## Buffer groups and jobs -/

/-- `thinkTimeSettings` of a connection / group. -/
structure ThinkTimeSettings where
  enabled : Bool
  minThinkTime : Int
  maxThinkTime : Int
deriving DecidableEq, Repr

/-- The `BufferGroup` record of `stop-recorder.ts`. -/
structure BufferGroup where
  baseUrl : Option String := none
  id : Int
  machineName : String
  events : List Evt
  thinkTimeSettings : Option ThinkTimeSettings := none
deriving DecidableEq, Repr

/-- Driver parameters / settings objects, modelled as key-value lists
(`{}` is `[]`). -/
abbrev DriverParameters := List (String × String)

/-- One compiled job. -/
structure Job where
  driverParameters : DriverParameters
  referenceId : String
  referenceName : String
  referenceDescription : String
  rules : List Rule
deriving DecidableEq, Repr

/-- The `while (buffer.length > 0)` loop of `newJob`, fuel-indexed. One unit
of fuel is one iteration of the outer loop; the keyboard sub-scan is given the
remaining fuel. -/
def newJobLoop (mode : String) (map : List (String × String)) :
    Nat → List Evt → List Rule → Option (List Rule)
  | _, [], rules => some rules
  | 0, _ :: _, _ => none
  | fuel + 1, b :: rest, rules =>
    match assertEvent (some b) with
    | none => newJobLoop mode map fuel rest rules
    | some n =>
      let e := n.event
      if ((e.value.type).map (matchCI "mouse")).getD false then
        newJobLoop mode map fuel rest (rules ++ [resolveMouseEvent mode e])
      else
        match resolveKeyboardEvent mode map fuel e rest with
        | none => none
        | some (keyboardActions, rest') =>
          newJobLoop mode map fuel rest' (rules ++ keyboardActions)

/-- `StopRecorderCommand.newJob` (fuel-indexed): compiles one buffer group
into a job, appends the fixed session-close rule, and optionally applies the
think-time post-pass. -/
def newJob (id mode : String) (map : List (String × String)) (fuel : Nat)
    (bufferGroup : BufferGroup) : Option Job :=
  (newJobLoop mode map fuel bufferGroup.events []).map fun scanned =>
    let rules := scanned ++ [closeBrowserRule]
    let rules :=
      if ((bufferGroup.thinkTimeSettings.map (·.enabled)).getD false) then
        addThinkTime rules
          ((bufferGroup.thinkTimeSettings.map (·.minThinkTime)).getD 0)
          ((bufferGroup.thinkTimeSettings.map (·.maxThinkTime)).getD 0)
      else rules
    { driverParameters := [],
      referenceId := id,
      referenceName := "Recorded Actions Job (" ++ bufferGroup.machineName ++ ")",
      referenceDescription :=
        "Job to execute all recorded actions from machine " ++ bufferGroup.machineName ++ ".",
      rules := rules }

/-! ## Stream segmentation (`newBufferGroups`) -/

/-- Splits the buffer into maximal runs of equal `value.machineName`
(the walk of `newBufferGroups` that opens a new group whenever the machine
name changes). -/
def chunkByMachine : List Evt → List (String × List Evt)
  | [] => []
  | e :: rest =>
    let m := e.value.machineName
    (m, e :: rest.takeWhile (fun x => x.value.machineName = m)) ::
      chunkByMachine (rest.dropWhile (fun x => x.value.machineName = m))
termination_by l => l.length
decreasing_by
  simp only [List.length_cons]
  exact Nat.lt_succ_of_le (List.dropWhile_sublist _).length_le

/-- Numbers the machine chunks with sequential 1-based ids. -/
def mkGroups : Nat → List (String × List Evt) → List BufferGroup
  | _, [] => []
  | n, (m, es) :: rest =>
    { id := Int.ofNat (n + 1), machineName := m, events := es } :: mkGroups (n + 1) rest

/-- The trailing `currentGroup.baseUrl = buffer[0].baseUrl` assignment: only
the group that is still active at the end of the walk (the last one) receives
a `baseUrl`, and it is the tag of the first event of the whole buffer. -/
def setLastBaseUrl (u : Option String) : List BufferGroup → List BufferGroup
  | [] => []
  | [g] => [{ g with baseUrl := u }]
  | g :: g' :: rest => g :: setLastBaseUrl u (g' :: rest)

/-- `StopRecorderCommand.newBufferGroups`. -/
def newBufferGroups (buffer : List Evt) : List BufferGroup :=
  setLastBaseUrl (buffer.head?.bind (·.baseUrl)) (mkGroups 0 (chunkByMachine buffer))

/-! ## Connections, stream merging and the compile pass (`onInvokeCommand`) -/

/-- `EventCaptureOptions` of `g4-signalr-client.ts` (the data fields the
compile pass reads). -/
structure EventCaptureOptions where
  baseUrl : String
  driverParameters : Option DriverParameters := none
  mode : Option String := none
  thinkTimeSettings : Option ThinkTimeSettings := none
deriving DecidableEq, Repr

/-- `EventCaptureService`: one capture connection with its append-only buffer.
`StartRecorderCommand` keys the connection map by the same endpoint URL it
passes as `options.baseUrl`, so map lookup is modelled as a search by
`options.baseUrl`. -/
structure EventCaptureService where
  options : EventCaptureOptions
  buffer : List Evt
deriving DecidableEq, Repr

/-- The merge tagging step: `service.buffer.map(item => ({...item, baseUrl:
service.options.baseUrl}))`. -/
def tagEvents (service : EventCaptureService) : List Evt :=
  service.buffer.map fun e => { e with baseUrl := some service.options.baseUrl }

/-- The flattened multi-connection event sequence, in connection order. -/
def flattenBuffers (connections : List EventCaptureService) : List Evt :=
  (connections.map tagEvents).flatten

/-- The sort relation induced by the comparator
`(a, b) => a.timestamp - b.timestamp`. -/
def tsLE (a b : Evt) : Prop := a.timestamp ≤ b.timestamp

instance : DecidableRel tsLE := fun a b => inferInstanceAs (Decidable (a.timestamp ≤ b.timestamp))

instance : IsTotal Evt tsLE := ⟨fun a b => Int.le_total a.timestamp b.timestamp⟩

instance : IsTrans Evt tsLE := ⟨fun _ _ _ h1 h2 => Int.le_trans h1 h2⟩

/-- The merged, timestamp-sorted event sequence built at the top of
`onInvokeCommand`. `Array.prototype.sort` is stable (ECMAScript 2019), so it
is modelled by the stable `List.insertionSort`. -/
def mergedBuffer (connections : List EventCaptureService) : List Evt :=
  List.insertionSort tsLE (flattenBuffers connections)

/-- `StopRecorderCommand.getFirstCaptureService`: with a single connection it
is returned directly; otherwise every buffered item of every connection is
scanned for the strictly earliest timestamp (first hit wins ties). -/
def getFirstCaptureService (connections : List EventCaptureService) :
    Option EventCaptureService :=
  if connections.length = 1 then connections.head?
  else
    (connections.foldl
      (fun acc service =>
        service.buffer.foldl
          (fun acc item =>
            match acc with
            | none => some (item.timestamp, service)
            | some (t, s) =>
              if item.timestamp < t then some (item.timestamp, service) else some (t, s))
          acc)
      none).map (·.2)

/-- The manifest fields read by `newAutomation`. -/
structure Manifest where
  authenticationToken : Option String := none
  settings : Option (List (String × String)) := none
deriving DecidableEq, Repr

/-- One stage of the automation document. -/
structure Stage where
  referenceId : String := "recorder-stage-01"
  referenceName : String := "Recorded Actions Stage"
  referenceDescription : String :=
    "Stage to execute all actions captured during the recording session."
  jobs : List Job
deriving DecidableEq, Repr

/-- The root automation document. -/
structure Automation where
  authenticationToken : String
  driverParameters : DriverParameters
  settings : List (String × String)
  stages : List Stage
deriving DecidableEq, Repr

/-- `StopRecorderCommand.newAutomation`. -/
def newAutomation (manifest : Manifest) (driverParameters : DriverParameters) :
    Automation :=
  { authenticationToken := manifest.authenticationToken.getD "",
    driverParameters := driverParameters,
    settings := manifest.settings.getD [],
    stages := [{ jobs := [] }] }

/-- `this._connections.get(group.baseUrl || '')`: the connection a group's
`baseUrl` resolves to (`StartRecorderCommand` keys the map by the same URL it
passes as `options.baseUrl`). -/
def groupConnection (connections : List EventCaptureService) (group : BufferGroup) :
    Option EventCaptureService :=
  connections.find? (fun s => s.options.baseUrl = group.baseUrl.getD "")

/-- The group-to-job loop of `onInvokeCommand`: resolves each group's
connection by its `baseUrl` (`mode := connection?.options?.mode || 'standard'`,
think-time settings likewise), compiles the job, and overrides the driver
parameters of every non-first job whose connection was found. -/
def buildJobs (connections : List EventCaptureService)
    (map : List (String × String)) (fuel : Nat) :
    Nat → List BufferGroup → Option (List Job)
  | _, [] => some []
  | i, group :: rest =>
    match newJob ("recorded-actions-job-" ++ toLowerStr group.machineName)
        (((groupConnection connections group).bind (·.options.mode)).getD "standard")
        map fuel
        { group with
            thinkTimeSettings :=
              some (((groupConnection connections group).bind
                  (·.options.thinkTimeSettings)).getD
                { enabled := false, minThinkTime := 0, maxThinkTime := 0 }) } with
    | none => none
    | some job =>
      (buildJobs connections map fuel (i + 1) rest).map
        ((if i ≠ 0 then
            match groupConnection connections group with
            | some c => { job with driverParameters := (c.options.driverParameters).getD [] }
            | none => job
          else job) :: ·)

/-- `StopRecorderCommand.onInvokeCommand` (fuel-indexed): the whole compile
pass. Buffers are merged first, then every connection's buffer is cleared,
and only afterwards is `getFirstCaptureService` consulted — so with more than
one connection the earliest-event scan runs over empty buffers. `none` models
the aborted pass (no automation handed to the viewer) as well as fuel
exhaustion of the compile loops. -/
def onInvokeCommand (fuel : Nat) (connections : List EventCaptureService)
    (manifest : Manifest) : Option Automation :=
  match getFirstCaptureService (connections.map fun s => { s with buffer := [] }) with
  | none => none
  | some initialConnection =>
    if (newBufferGroups (mergedBuffer connections)).isEmpty then none
    else
      (buildJobs connections includeKeyboardEventMap fuel 0
        (newBufferGroups (mergedBuffer connections))).map fun jobs =>
        { newAutomation manifest ((initialConnection.options.driverParameters).getD [])
            with stages := [{ jobs := jobs }] }

/-! ## Lemmas about segmentation -/

theorem chunkByMachine_flatten (l : List Evt) :
    ((chunkByMachine l).map (·.2)).flatten = l := by
  induction l using chunkByMachine.induct with
  | case1 => simp [chunkByMachine]
  | case2 e rest m ih =>
    rw [chunkByMachine]
    simp only [List.map_cons, List.flatten_cons, ih, List.cons_append]
    rw [List.takeWhile_append_dropWhile]

theorem chunkByMachine_mem {l : List Evt} {c : String × List Evt}
    (hc : c ∈ chunkByMachine l) :
    c.2 ≠ [] ∧ ∀ e ∈ c.2, e.value.machineName = c.1 := by
  induction l using chunkByMachine.induct with
  | case1 => simp [chunkByMachine] at hc
  | case2 e rest m ih =>
    rw [chunkByMachine] at hc
    rcases List.mem_cons.mp hc with h | h
    · subst h
      refine ⟨by simp, ?_⟩
      intro x hx
      rcases List.mem_cons.mp hx with h | h
      · subst h; rfl
      · have := List.mem_takeWhile_imp h
        simpa using this
    · exact ih h

theorem chunkByMachine_head {e : Evt} {rest : List Evt} :
    (chunkByMachine (e :: rest)).head?.map (·.1) = some e.value.machineName := by
  rw [chunkByMachine]
  rfl

theorem chunkByMachine_chain (l : List Evt) :
    List.Chain' (fun a b : String × List Evt => a.1 ≠ b.1) (chunkByMachine l) := by
  induction l using chunkByMachine.induct with
  | case1 => simp [chunkByMachine]
  | case2 e rest m ih =>
    rw [chunkByMachine]
    refine List.chain'_cons'.mpr ⟨?_, ih⟩
    intro b hb
    rcases hd : rest.dropWhile (fun x => x.value.machineName = m) with _ | ⟨x, xs⟩
    · rw [hd] at hb; simp [chunkByMachine] at hb
    · rw [hd] at hb
      have hx : (decide (x.value.machineName = m)) = false := by
        have := @List.head_dropWhile_not Evt (fun x : Evt => decide (x.value.machineName = m)) rest
        simp only [hd] at this
        simpa using this (by simp)
      have hb1 : b.1 = x.value.machineName := by
        have := @chunkByMachine_head x xs
        rcases hc : chunkByMachine (x :: xs) with _ | ⟨c0, cs⟩
        · rw [hc] at hb; simp at hb
        · rw [hc] at hb this
          simp only [List.head?_cons, Option.map_some] at this
          rw [List.head?_cons] at hb
          simp only [Option.mem_def, Option.some.injEq] at hb
          subst hb
          exact Option.some.injEq _ _ |>.mp this
      intro hmb
      rw [← hmb] at hb1
      simp at hx
      exact hx (hb1 ▸ rfl)

theorem mkGroups_proj (n : Nat) (cs : List (String × List Evt)) :
    (mkGroups n cs).map (fun g => (g.machineName, g.events)) = cs := by
  induction cs generalizing n with
  | nil => rfl
  | cons c rest ih => cases c; simp [mkGroups, ih]

theorem setLastBaseUrl_proj (u : Option String) (gs : List BufferGroup) :
    (setLastBaseUrl u gs).map (fun g => (g.machineName, g.events)) =
      gs.map (fun g => (g.machineName, g.events)) := by
  induction gs with
  | nil => rfl
  | cons g rest ih =>
    cases rest with
    | nil => rfl
    | cons g' rest' => simpa [setLastBaseUrl] using ih

theorem newBufferGroups_proj (buffer : List Evt) :
    (newBufferGroups buffer).map (fun g => (g.machineName, g.events)) =
      chunkByMachine buffer := by
  rw [newBufferGroups, setLastBaseUrl_proj, mkGroups_proj]

/-- C1 — Segmentation invariant of `newBufferGroups`: concatenating every
group's events in group order reproduces exactly the merged input sequence;
every group is non-empty and machine-homogeneous; and adjacent groups carry
different machine names — so a group boundary exists exactly where
`machineName` changes, the first event opens a group, and a machine that
reappears after an intervening different machine opens a fresh group. -/
theorem c1_segmentation (buffer : List Evt) :
    (((newBufferGroups buffer).map (·.events)).flatten = buffer)
    ∧ (∀ g ∈ newBufferGroups buffer,
        g.events ≠ [] ∧ ∀ e ∈ g.events, e.value.machineName = g.machineName)
    ∧ List.Chain' (fun g h : BufferGroup => g.machineName ≠ h.machineName)
        (newBufferGroups buffer) := by
  have hproj := newBufferGroups_proj buffer
  refine ⟨?_, ?_, ?_⟩
  · have : (newBufferGroups buffer).map (·.events) =
        (chunkByMachine buffer).map (·.2) := by
      calc (newBufferGroups buffer).map (·.events)
          = ((newBufferGroups buffer).map (fun g => (g.machineName, g.events))).map (·.2) := by
            simp [List.map_map]
        _ = (chunkByMachine buffer).map (·.2) := by rw [hproj]
    rw [this, chunkByMachine_flatten]
  · intro g hg
    have : (g.machineName, g.events) ∈ chunkByMachine buffer := by
      rw [← hproj]
      exact List.mem_map_of_mem _ hg
    have h := chunkByMachine_mem this
    exact ⟨h.1, h.2⟩
  · have := chunkByMachine_chain buffer
    rw [← hproj] at this
    exact (List.chain'_map (fun g : BufferGroup => (g.machineName, g.events))).mp this

/-! ## Lemmas about the trailing `baseUrl` assignment -/

theorem setLastBaseUrl_dropLast (u : Option String) (gs : List BufferGroup) :
    ∀ g ∈ (setLastBaseUrl u gs).dropLast, g ∈ gs.dropLast := by
  induction gs with
  | nil => simp [setLastBaseUrl]
  | cons g rest ih =>
    cases rest with
    | nil => simp [setLastBaseUrl]
    | cons g' rest' =>
      intro x hx
      rw [setLastBaseUrl] at hx
      have hne : setLastBaseUrl u (g' :: rest') ≠ [] := by
        cases rest' <;> simp [setLastBaseUrl]
      rw [List.dropLast_cons_of_ne_nil hne] at hx
      rcases List.mem_cons.mp hx with h | h
      · subst h
        rw [List.dropLast_cons_of_ne_nil (by simp)]
        exact List.mem_cons_self _ _
      · rw [List.dropLast_cons_of_ne_nil (by simp)]
        exact List.mem_cons_of_mem _ (ih x h)

theorem mkGroups_baseUrl (n : Nat) (cs : List (String × List Evt)) :
    ∀ g ∈ mkGroups n cs, g.baseUrl = none := by
  induction cs generalizing n with
  | nil => simp [mkGroups]
  | cons c rest ih =>
    cases c
    intro g hg
    rcases List.mem_cons.mp hg with h | h
    · subst h; rfl
    · exact ih _ g h

theorem setLastBaseUrl_getLast (u : Option String) (gs : List BufferGroup) :
    ∀ g ∈ (setLastBaseUrl u gs).getLast?, g.baseUrl = u := by
  induction gs with
  | nil => simp [setLastBaseUrl]
  | cons g rest ih =>
    cases rest with
    | nil => simp [setLastBaseUrl]
    | cons g' rest' =>
      intro x hx
      rw [setLastBaseUrl] at hx
      rcases hsl : setLastBaseUrl u (g' :: rest') with _ | ⟨y, ys⟩
      · exact absurd hsl (by cases rest' <;> simp [setLastBaseUrl])
      · rw [hsl, List.getLast?_cons_cons] at hx
        refine ih x ?_
        rw [hsl]
        exact hx

/-- C8 (amended) — After segmentation, every group except the last has no
`baseUrl`, and the last group's `baseUrl` is the connection tag of the first
event of the *whole* merged buffer (not of that group's own first event). -/
theorem c8_last_base_url (buffer : List Evt) :
    (∀ g ∈ (newBufferGroups buffer).dropLast, g.baseUrl = none)
    ∧ ∀ g ∈ (newBufferGroups buffer).getLast?,
        g.baseUrl = buffer.head?.bind (·.baseUrl) := by
  constructor
  · intro g hg
    have hmem := setLastBaseUrl_dropLast _ _ g hg
    exact mkGroups_baseUrl _ _ g (List.dropLast_sublist _ |>.mem hmem)
  · exact setLastBaseUrl_getLast _ _

/-! ## Concrete segmentation inputs -/

/-- A two-connection merged buffer: machine `A` tagged `u1`, then machine `B`
tagged `u2`. -/
def c8Buffer : List Evt :=
  [{ timestamp := 1, baseUrl := some "u1", value := { event := "left up", machineName := "A" } },
   { timestamp := 2, baseUrl := some "u2", value := { event := "left up", machineName := "B" } }]

/-- The first (machine `A`) group produced for `c8Buffer`. -/
def c8GroupA : BufferGroup :=
  { id := 1, machineName := "A",
    events := [{ timestamp := 1, baseUrl := some "u1",
                 value := { event := "left up", machineName := "A" } }] }

/-- The last (machine `B`) group produced for `c8Buffer`: its `baseUrl` is the
tag of the *first* event of the whole buffer. -/
def c8GroupB : BufferGroup :=
  { id := 2, machineName := "B", baseUrl := some "u1",
    events := [{ timestamp := 2, baseUrl := some "u2",
                 value := { event := "left up", machineName := "B" } }] }

theorem newBufferGroups_c8Buffer :
    newBufferGroups c8Buffer = [c8GroupA, c8GroupB] := by
  rw [newBufferGroups, c8Buffer]
  rw [chunkByMachine]
  simp [mkGroups, setLastBaseUrl, chunkByMachine, c8GroupA, c8GroupB]

/-- C8 counterexample — on a two-machine buffer the claim "every finished
group records the `baseUrl` of the connection that contributed its first
event" is false: the first group gets no `baseUrl` at all, and the last group
gets the tag of the buffer's overall first event (`u1`), not of its own first
event (`u2`). -/
theorem c8_counterexample :
    ¬ (∀ g ∈ newBufferGroups c8Buffer,
        g.baseUrl = g.events.head?.bind (·.baseUrl)) := by
  intro h
  have h1 := h c8GroupA (by rw [newBufferGroups_c8Buffer]; simp)
  simp [c8GroupA] at h1

/-- C8 witness — the amended theorem applied to `c8Buffer`: the last group's
`baseUrl` is the tag of the whole buffer's first event. -/
theorem c8_witness :
    c8GroupB ∈ (newBufferGroups c8Buffer).getLast? ∧ c8GroupB.baseUrl = some "u1" := by
  have hmem : c8GroupB ∈ (newBufferGroups c8Buffer).getLast? := by
    rw [newBufferGroups_c8Buffer]; simp
  refine ⟨hmem, ?_⟩
  have := (c8_last_base_url c8Buffer).2 c8GroupB hmem
  simpa [c8Buffer] using this

/-- A three-machine buffer (machines `A`, `B`, `A`) used to exhibit the
segmentation invariant on a machine that reappears. -/
def c1Buffer : List Evt :=
  [{ timestamp := 1, value := { event := "left up", machineName := "A" } },
   { timestamp := 2, value := { event := "left up", machineName := "B" } },
   { timestamp := 3, value := { event := "left up", machineName := "A" } }]

/-- C1 witness — the segmentation theorem applied to a concrete `A, B, A`
buffer: its first group is a member of the segmentation and is non-empty and
machine-homogeneous. -/
theorem c1_witness :
    ∃ g ∈ newBufferGroups c1Buffer,
      g.events ≠ [] ∧ ∀ e ∈ g.events, e.value.machineName = g.machineName := by
  have hg : ∃ g, g ∈ newBufferGroups c1Buffer := by
    have hflat := (c1_segmentation c1Buffer).1
    rcases hn : newBufferGroups c1Buffer with _ | ⟨g, gs⟩
    · rw [hn] at hflat
      simp [c1Buffer] at hflat
    · exact ⟨g, by simp⟩
  rcases hg with ⟨g, hg⟩
  exact ⟨g, hg, (c1_segmentation c1Buffer).2.1 g hg⟩

/-! ## Ordering and stability of the merge -/

/-- C2 — Ordering invariant of the merge step: the merged sequence is
non-decreasing in `timestamp`, and for every timestamp value the subsequence
of events carrying it is exactly the corresponding subsequence of the
flattened input — equal-timestamp events keep the relative order they had
across the flattened connection buffers (and hence within each connection's
buffer), the stable tie-break of `Array.prototype.sort`. -/
theorem c2_merge_order_stable (connections : List EventCaptureService) :
    List.Sorted tsLE (mergedBuffer connections)
    ∧ ∀ t : Int,
        (mergedBuffer connections).filter (fun e => e.timestamp = t) =
          (flattenBuffers connections).filter (fun e => e.timestamp = t) := by
  constructor
  · exact List.sorted_insertionSort tsLE (flattenBuffers connections)
  · intro t
    have hsub : List.Sublist
        ((flattenBuffers connections).filter (fun e => e.timestamp = t))
        (flattenBuffers connections) := List.filter_sublist _
    have hpair : ((flattenBuffers connections).filter
        (fun e => e.timestamp = t)).Pairwise tsLE := by
      apply List.pairwise_of_forall_mem_list
      intro a ha b hb
      have hat : a.timestamp = t := by simpa using (List.mem_filter.mp ha).2
      have hbt : b.timestamp = t := by simpa using (List.mem_filter.mp hb).2
      exact le_of_eq (hat.trans hbt.symm)
    have h2 : List.Sublist
        ((flattenBuffers connections).filter (fun e => e.timestamp = t))
        (List.insertionSort tsLE (flattenBuffers connections)) :=
      List.sublist_insertionSort hpair hsub
    have hself : ((flattenBuffers connections).filter (fun e => e.timestamp = t)).filter
        (fun e => e.timestamp = t) =
        (flattenBuffers connections).filter (fun e => e.timestamp = t) := by
      simp [List.filter_filter]
    have h3 : List.Sublist
        ((flattenBuffers connections).filter (fun e => e.timestamp = t))
        ((List.insertionSort tsLE (flattenBuffers connections)).filter
          (fun e => e.timestamp = t)) := by
      rw [← hself]
      exact h2.filter _
    have hperm : List.Perm
        ((List.insertionSort tsLE (flattenBuffers connections)).filter
          (fun e => e.timestamp = t))
        ((flattenBuffers connections).filter (fun e => e.timestamp = t)) :=
      (List.perm_insertionSort tsLE (flattenBuffers connections)).filter _
    exact (h3.eq_of_length hperm.length_eq.symm).symm

/-! ## The session-close rule is always last -/

theorem thinkChain_ne_nil (mn mx : Int) (x : Rule) (ys : List Rule) :
    thinkChain mn mx x ys ≠ [] := by
  cases ys <;> simp [thinkChain]

theorem thinkChain_getLast (mn mx : Int) (x : Rule) (ys : List Rule) :
    (thinkChain mn mx x ys).getLast? = (x :: ys).getLast? := by
  induction ys generalizing x with
  | nil => rfl
  | cons y ys' ih =>
    rw [thinkChain]
    rcases hl : waitOpt mn mx x y ++ thinkChain mn mx y ys' with _ | ⟨z, zs⟩
    · exact absurd hl (by simp [thinkChain_ne_nil])
    · rw [List.getLast?_cons_cons, ← hl]
      rw [List.getLast?_append_of_ne_nil _ (thinkChain_ne_nil mn mx y ys')]
      rw [ih y]
      exact (List.getLast?_cons_cons).symm

theorem addThinkTime_getLast (rules : List Rule) (mn mx : Int) (h : rules ≠ []) :
    (addThinkTime rules mn mx).getLast? = rules.getLast? := by
  match rules with
  | [] => exact absurd rfl h
  | [r] => rfl
  | x :: y :: rest => exact thinkChain_getLast mn mx x (y :: rest)

/-- C3 — Termination invariant of the compiled job: whenever `newJob`
produces a job (for any group, any mode, and with think-time synthesis
enabled or disabled), the job's last rule is the fixed session-close action
`CloseBrowser` — the think-time post-pass preserves the final rule. -/
theorem c3_last_rule_close (id mode : String) (map : List (String × String))
    (fuel : Nat) (g : BufferGroup) (job : Job)
    (h : newJob id mode map fuel g = some job) :
    job.rules.getLast? = some closeBrowserRule := by
  rcases Option.map_eq_some'.mp h with ⟨scanned, _, hjob⟩
  subst hjob
  simp only
  have hbase : (scanned ++ [closeBrowserRule]).getLast? = some closeBrowserRule := by
    simp
  split
  · rw [addThinkTime_getLast _ _ _ (by simp)]
    exact hbase
  · exact hbase

/-- A group whose only event is rejected by normalization (a `keydown`). -/
def c3Group : BufferGroup :=
  { id := 1, machineName := "A",
    events := [{ timestamp := 1, value := { event := "keydown", machineName := "A" } }],
    thinkTimeSettings := some { enabled := true, minThinkTime := 1, maxThinkTime := 10 } }

/-- The one-rule job `newJob` produces for `c3Group`. -/
def c3Job : Job :=
  { driverParameters := [], referenceId := "recorded-actions-job-a",
    referenceName := "Recorded Actions Job (A)",
    referenceDescription := "Job to execute all recorded actions from machine A.",
    rules := [closeBrowserRule] }

theorem newJob_c3Group :
    newJob "recorded-actions-job-a" "standard" includeKeyboardEventMap 2 c3Group =
      some c3Job := by rfl

/-- C3 witness — `newJob` on a group whose events are all rejected (with
think time enabled) produces a one-rule job ending in `CloseBrowser`. -/
theorem c3_witness :
    newJob "recorded-actions-job-a" "standard" includeKeyboardEventMap 2 c3Group =
        some c3Job ∧ c3Job.rules.getLast? = some closeBrowserRule :=
  ⟨newJob_c3Group, c3_last_rule_close _ _ _ _ _ _ newJob_c3Group⟩

/-! ## The think-time pass on one adjacent pair -/

/-- The tail of `thinkChain` past its head rule. -/
def thinkRest (mn mx : Int) (x : Rule) : List Rule → List Rule
  | [] => []
  | y :: ys => waitOpt mn mx x y ++ thinkChain mn mx y ys

theorem thinkChain_eq (mn mx : Int) (x : Rule) (ys : List Rule) :
    thinkChain mn mx x ys = x :: thinkRest mn mx x ys := by
  cases ys <;> rfl

/-- The prefix of the think-time output contributed by the rules before an
adjacent pair of interest (`r` is the rule just after the prefix). -/
def thinkFront (mn mx : Int) : List Rule → Rule → List Rule
  | [], _ => []
  | x :: xs, r => x :: (waitOpt mn mx x (xs.headD r) ++ thinkFront mn mx xs r)

theorem thinkChain_split (mn mx : Int) (x : Rule) (xs : List Rule) (r : Rule)
    (rest : List Rule) :
    thinkChain mn mx x (xs ++ r :: rest) =
      thinkFront mn mx (x :: xs) r ++ thinkChain mn mx r rest := by
  induction xs generalizing x with
  | nil => simp [thinkChain, thinkFront]
  | cons y xs' ih =>
    rw [List.cons_append, thinkChain, ih y]
    simp [thinkFront, List.append_assoc]

theorem addThinkTime_cons_of_ne_nil (mn mx : Int) (x : Rule) (ys : List Rule)
    (h : ys ≠ []) :
    addThinkTime (x :: ys) mn mx = thinkChain mn mx x ys := by
  cases ys with
  | nil => exact absurd rfl h
  | cons y ys' => rfl

/-- C4 — Think-time bound: in the think-time post-pass, between any two
adjacent rules whose context timestamps are both present (finite), exactly one
synthetic `WaitFlow` rule is inserted when `t2 - t1 > minThinkTime` — with
`Timeout` argument `min (t2 - t1) maxThinkTime` milliseconds and a display
label carrying that duration in seconds rounded to two decimal places by
`Number((duration / 1000).toFixed(2))`, modelled exactly over binary64 in
`mkWaitRule` / `toFixed2Centis` — and nothing is inserted when
`t2 - t1 ≤ minThinkTime`. -/
theorem c4_think_time_pair (mn mx t1 t2 : Int) (l1 l2 : List Rule) (r1 r2 : Rule)
    (h1 : r1.context.bind (·.timestamp) = some t1)
    (h2 : r2.context.bind (·.timestamp) = some t2) :
    addThinkTime (l1 ++ r1 :: r2 :: l2) mn mx
      = thinkFront mn mx l1 r1 ++ r1 ::
          ((if t2 - t1 > mn then [mkWaitRule (min (t2 - t1) mx)] else []) ++
            r2 :: thinkRest mn mx r2 l2) := by
  have hw : waitOpt mn mx r1 r2 =
      if t2 - t1 > mn then [mkWaitRule (min (t2 - t1) mx)] else [] := by
    rw [waitOpt, h1, h2]
  cases l1 with
  | nil =>
    show addThinkTime (r1 :: r2 :: l2) mn mx = _
    rw [addThinkTime_cons_of_ne_nil _ _ _ _ (by simp), thinkChain, hw,
      thinkChain_eq]
    rw [thinkFront]
    rw [List.nil_append]
  | cons x xs =>
    rw [List.cons_append, addThinkTime_cons_of_ne_nil _ _ _ _ (by simp),
      thinkChain_split, thinkChain, hw, thinkChain_eq]

/-- First rule of the concrete think-time pair. -/
def c4r1 : Rule := { pluginName := "A", context := some { timestamp := some 0 } }

/-- Second rule of the concrete think-time pair, 2000 ms later. -/
def c4r2 : Rule := { pluginName := "B", context := some { timestamp := some 2000 } }

/-- C4 witness — the pair theorem applied to two rules 2000 ms apart with
`minThinkTime = 500` and `maxThinkTime = 1500`: exactly one `WaitFlow` rule
capped at 1500 ms (labelled `1.5` seconds) is inserted between them. -/
theorem c4_witness :
    c4r1.context.bind (·.timestamp) = some 0 ∧
    c4r2.context.bind (·.timestamp) = some 2000 ∧
    addThinkTime [c4r1, c4r2] 500 1500 = [c4r1, mkWaitRule 1500, c4r2] ∧
    (mkWaitRule 1500).capabilities =
      some { displayName := some "Think Time (1.5 seconds)" } := by
  refine ⟨rfl, rfl, ?_, by decide⟩
  have h := c4_think_time_pair 500 1500 0 2000 [] [] c4r1 c4r2 rfl rfl
  simpa [thinkFront, thinkRest] using h

/-! ## Unknown mouse button classes degrade to the no-op marker -/

/-- C9 — Error-handling totality of the mouse resolver: for every event whose
button class (the lowercased first word of its `event` string) is not `left`,
`middle` or `right`, `resolveMouseEvent` returns a rule with the no-op marker
plugin name `None` — it is a total function, so such an event never aborts
compilation of the remaining events. -/
theorem c9_unknown_mouse (mode : String) (e : Evt)
    (h : toLowerStr (splitHead e.value.event) ∉ (["left", "middle", "right"] : List String)) :
    (resolveMouseEvent mode e).pluginName = "None" := by
  simp only [List.mem_cons, List.not_mem_nil, or_false, not_or] at h
  obtain ⟨h1, h2, h3⟩ := h
  have d1 : decide ("left" = toLowerStr (splitHead e.value.event)) = false :=
    decide_eq_false (fun hh => h1 hh.symm)
  have d2 : decide ("middle" = toLowerStr (splitHead e.value.event)) = false :=
    decide_eq_false (fun hh => h2 hh.symm)
  have d3 : decide ("right" = toLowerStr (splitHead e.value.event)) = false :=
    decide_eq_false (fun hh => h3 hh.symm)
  unfold resolveMouseEvent
  simp only [mapGet, List.find?, d1, d2, d3]
  split <;> rfl

/-- A mouse release event with the unresolvable button class `x1`. -/
def c9Evt : Evt :=
  { timestamp := 1,
    value := { event := "x1 up", type := some "mouse", machineName := "A",
               timestamp := some 1 } }

/-- C9 witness — the theorem applied to a concrete `x1 up` event. -/
theorem c9_witness :
    toLowerStr (splitHead c9Evt.value.event) ∉ (["left", "middle", "right"] : List String) ∧
    (resolveMouseEvent "standard" c9Evt).pluginName = "None" :=
  ⟨by decide, c9_unknown_mouse "standard" c9Evt (by decide)⟩

/-! ## Stepping lemmas for the keyboard sub-scan -/

theorem assertEvent_event {e : Evt} {n : NormalizedEvent}
    (h : assertEvent (some e) = some n) : n.event = e := by
  rw [assertEvent] at h
  split at h
  · exact absurd h (by simp)
  · split at h
    · exact absurd h (by simp)
    · split at h
      · exact absurd h (by simp)
      · split at h
        · exact absurd h (by simp)
        · rw [Option.some_inj] at h
          rw [← h]

theorem resolveKeyboardKey_resolved (mode : String) (e : Evt)
    (map : List (String × String)) :
    (resolveKeyboardKey mode e map).resolved = mapGet map (toLowerStr (rawKey e)) := rfl

theorem toLowerStr_length (s : String) : (toLowerStr s).length = s.length := by
  cases s with
  | mk data => simp only [toLowerStr, String.length, List.length_map]

/-- A buffered event that survives normalization, is typed as a keyboard (and
not a mouse) event, and carries a single-character key that is not in the
special-key allow-list: the events the sub-scan accumulates into its key
buffer. -/
def plainKeyEvent (map : List (String × String)) (e : Evt) : Bool :=
  (assertEvent (some e)).isSome
  && ((e.value.type).map (matchCI "keyboard")).getD false
  && !(((e.value.type).map (matchCI "mouse")).getD false)
  && ((rawKey e).length = 1)
  && (mapGet map (toLowerStr (rawKey e))).isNone

/-- A buffered event that survives normalization, is typed as a keyboard
event, and whose key resolves through the special-key allow-list. -/
def specialKeyEvent (map : List (String × String)) (e : Evt) : Bool :=
  (assertEvent (some e)).isSome
  && ((e.value.type).map (matchCI "keyboard")).getD false
  && (mapGet map (toLowerStr (rawKey e))).isSome

/-- Exit step: as soon as `isKeyboard` is false, the scan closes out the key
buffer as one type-sequence rule, at no fuel cost. -/
theorem keyboardScanLoop_exit (mode : String) (map : List (String × String))
    (fuel : Nat) (event : Evt) (kb : List String) (rules : List Rule)
    (buffer : List Evt) :
    keyboardScanLoop mode map fuel event kb rules buffer false =
      some (newKeyboardRule mode (String.join (kb.filter (· ≠ ""))) event false :: rules,
        buffer) := by
  cases fuel <;> rfl

/-- Empty-buffer divergence: with `isKeyboard` still true and an exhausted
buffer, every iteration shifts `undefined`, fails `assertEvent`, and
`continue`s without touching `isKeyboard` — the loop never exits, whatever
the fuel. -/
theorem keyboardScanLoop_empty_diverges (mode : String)
    (map : List (String × String)) (event : Evt) (kb : List String)
    (rules : List Rule) :
    ∀ fuel, keyboardScanLoop mode map fuel event kb rules [] true = none := by
  intro fuel
  induction fuel with
  | zero => rfl
  | succ f ih =>
    rw [keyboardScanLoop]
    exact ih

/-- Rejected-event step: a shifted event that fails `assertEvent` is skipped
and the loop continues with `isKeyboard` unchanged. -/
theorem keyboardScanLoop_cons_invalid (mode : String)
    (map : List (String × String)) (fuel : Nat) (event : Evt) (kb : List String)
    (rules : List Rule) (b : Evt) (buffer : List Evt)
    (hb : assertEvent (some b) = none) :
    keyboardScanLoop mode map (fuel + 1) event kb rules (b :: buffer) true =
      keyboardScanLoop mode map fuel event kb rules buffer true := by
  rw [keyboardScanLoop]
  simp only [List.head?_cons, List.tail_cons, hb]

/-- Plain-key step: a valid single-character non-special keyboard event is
appended to the key buffer and the scan continues, re-checking the peeked
head of the remaining buffer. -/
theorem keyboardScanLoop_cons_plain (mode : String)
    (map : List (String × String)) (fuel : Nat) (event : Evt) (kb : List String)
    (rules : List Rule) (b : Evt) (buffer : List Evt)
    (hb : plainKeyEvent map b = true) :
    keyboardScanLoop mode map (fuel + 1) event kb rules (b :: buffer) true =
      keyboardScanLoop mode map fuel b (kb ++ [rawKey b]) rules buffer
        (peekIsKeyboard buffer) := by
  simp only [plainKeyEvent, Bool.and_eq_true, decide_eq_true_eq] at hb
  obtain ⟨⟨⟨⟨hsome, _⟩, _⟩, hlen⟩, hnone⟩ := hb
  obtain ⟨n, hn⟩ := Option.isSome_iff_exists.mp hsome
  have hev := assertEvent_event hn
  have hnospace : ¬ (toLowerStr (rawKey b) = "space") := by
    intro hcontra
    have := toLowerStr_length (rawKey b)
    rw [hcontra, hlen] at this
    simp [String.length] at this
  rw [keyboardScanLoop]
  simp only [List.head?_cons, List.tail_cons, hn, hev]
  rw [resolveKeyboardKey_resolved]
  rw [Option.isNone_iff_eq_none.mp hnone]
  simp only [Option.isSome_none, Bool.false_eq_true, if_false, if_neg hnospace]
  rw [if_neg (by rw [hlen]; exact fun hh => absurd hh (by norm_num))]

/-- Special-key step: a valid allow-listed keyboard event pushes its dedicated
rule, closes out the key buffer (as a single-key action when the buffer is
exactly one allow-listed key, else as a type sequence) and returns — the
close-out rule placed *before* the special-key rule in the result. -/
theorem keyboardScanLoop_cons_special (mode : String)
    (map : List (String × String)) (fuel : Nat) (event : Evt) (kb : List String)
    (rules : List Rule) (b : Evt) (buffer : List Evt)
    (hb : specialKeyEvent map b = true) :
    keyboardScanLoop mode map (fuel + 1) event kb rules (b :: buffer) true =
      some (newKeyboardRule mode
          (if (kb.length = 1 : Bool) && (mapGet map (toLowerStr (kb.headD ""))).isSome
            then kb.headD "" else String.join (kb.filter (· ≠ "")))
          b ((kb.length = 1 : Bool) && (mapGet map (toLowerStr (kb.headD ""))).isSome)
        :: (rules ++ [(resolveKeyboardKey mode b map).rule]), buffer) := by
  simp only [specialKeyEvent, Bool.and_eq_true] at hb
  obtain ⟨⟨hsome, _⟩, hres⟩ := hb
  obtain ⟨n, hn⟩ := Option.isSome_iff_exists.mp hsome
  have hev := assertEvent_event hn
  rw [keyboardScanLoop]
  simp only [List.head?_cons, List.tail_cons, hn, hev]
  rw [resolveKeyboardKey_resolved]
  rw [if_pos hres]

theorem peekIsKeyboard_cons (b : Evt) (l : List Evt) :
    peekIsKeyboard (b :: l) = ((b.value.type).map (matchCI "keyboard")).getD false := rfl

theorem plainKeyEvent_keyboard {map : List (String × String)} {e : Evt}
    (h : plainKeyEvent map e = true) :
    ((e.value.type).map (matchCI "keyboard")).getD false = true := by
  simp only [plainKeyEvent, Bool.and_eq_true] at h
  exact h.1.1.1.2

theorem specialKeyEvent_keyboard {map : List (String × String)} {e : Evt}
    (h : specialKeyEvent map e = true) :
    ((e.value.type).map (matchCI "keyboard")).getD false = true := by
  simp only [specialKeyEvent, Bool.and_eq_true] at h
  exact h.1.2

/-- A run of plain keys that exhausts the buffer collapses into a single
type-sequence rule over the concatenation of the seeded-plus-consumed keys,
attributed to the last consumed event. -/
theorem keyboardScanLoop_plain_run (mode : String) (map : List (String × String)) :
    ∀ (buffer : List Evt) (fuel : Nat) (event : Evt) (kb : List String)
      (rules : List Rule),
      buffer ≠ [] →
      (∀ b ∈ buffer, plainKeyEvent map b = true) →
      buffer.length ≤ fuel →
      keyboardScanLoop mode map fuel event kb rules buffer true =
        some (newKeyboardRule mode
            (String.join ((kb ++ buffer.map rawKey).filter (· ≠ "")))
            (buffer.getLastD event) false :: rules, []) := by
  intro buffer
  induction buffer with
  | nil => intro _ _ _ _ hne _ _; exact absurd rfl hne
  | cons b rest ih =>
    intro fuel event kb rules _ hall hlen
    obtain ⟨f, rfl⟩ : ∃ f, fuel = f + 1 := by
      cases fuel with
      | zero => simp at hlen
      | succ f => exact ⟨f, rfl⟩
    rw [keyboardScanLoop_cons_plain _ _ _ _ _ _ _ _ (hall b (by simp))]
    cases rest with
    | nil =>
      rw [show peekIsKeyboard [] = false from rfl, keyboardScanLoop_exit]
      simp [List.getLastD]
    | cons b2 rest2 =>
      rw [peekIsKeyboard_cons, plainKeyEvent_keyboard (hall b2 (by simp))]
      rw [ih f b (kb ++ [rawKey b]) rules (by simp)
        (fun x hx => hall x (List.mem_cons_of_mem _ hx))
        (by simpa using Nat.le_of_succ_le_succ hlen)]
      simp [List.append_assoc, List.getLastD]

/-- A run of plain keys that reaches an allow-listed special key: the special
key's dedicated rule is pushed, and the accumulated buffer is closed out —
the close-out rule placed *first* in the returned rule list. -/
theorem keyboardScanLoop_special_run (mode : String) (map : List (String × String)) :
    ∀ (mid : List Evt) (fuel : Nat) (event : Evt) (kb : List String)
      (rules : List Rule) (esp : Evt) (rest : List Evt),
      (∀ b ∈ mid, plainKeyEvent map b = true) →
      specialKeyEvent map esp = true →
      mid.length < fuel →
      keyboardScanLoop mode map fuel event kb rules (mid ++ esp :: rest) true =
        some (newKeyboardRule mode
            (if ((kb ++ mid.map rawKey).length = 1 : Bool) &&
                (mapGet map (toLowerStr ((kb ++ mid.map rawKey).headD ""))).isSome
              then (kb ++ mid.map rawKey).headD ""
              else String.join ((kb ++ mid.map rawKey).filter (· ≠ "")))
            esp
            (((kb ++ mid.map rawKey).length = 1 : Bool) &&
              (mapGet map (toLowerStr ((kb ++ mid.map rawKey).headD ""))).isSome)
          :: (rules ++ [(resolveKeyboardKey mode esp map).rule]), rest) := by
  intro mid
  induction mid with
  | nil =>
    intro fuel event kb rules esp rest _ hesp hlen
    obtain ⟨f, rfl⟩ : ∃ f, fuel = f + 1 := by
      cases fuel with
      | zero => exact absurd hlen (by simp)
      | succ f => exact ⟨f, rfl⟩
    rw [List.nil_append, keyboardScanLoop_cons_special _ _ _ _ _ _ _ _ hesp]
    simp
  | cons b mid' ih =>
    intro fuel event kb rules esp rest hall hesp hlen
    obtain ⟨f, rfl⟩ : ∃ f, fuel = f + 1 := by
      cases fuel with
      | zero => exact absurd hlen (by simp)
      | succ f => exact ⟨f, rfl⟩
    rw [List.cons_append, keyboardScanLoop_cons_plain _ _ _ _ _ _ _ _ (hall b (by simp))]
    have hpeek : peekIsKeyboard (mid' ++ esp :: rest) = true := by
      cases mid' with
      | nil => rw [List.nil_append, peekIsKeyboard_cons, specialKeyEvent_keyboard hesp]
      | cons b2 mid2 =>
        rw [List.cons_append, peekIsKeyboard_cons,
          plainKeyEvent_keyboard (hall b2 (by simp))]
    rw [hpeek]
    rw [ih f b (kb ++ [rawKey b]) rules esp rest
      (fun x hx => hall x (List.mem_cons_of_mem _ hx)) hesp
      (by simpa using Nat.lt_of_succ_lt_succ hlen)]
    simp [List.append_assoc]

/-! ## Step lemmas for the outer `newJob` loop -/

theorem newJobLoop_nil (mode : String) (map : List (String × String))
    (fuel : Nat) (rules : List Rule) :
    newJobLoop mode map fuel [] rules = some rules := by
  cases fuel <;> rfl

theorem resolveKeyboardEvent_eq (mode : String) (map : List (String × String))
    (fuel : Nat) (event : Evt) (buffer : List Evt) :
    resolveKeyboardEvent mode map fuel event buffer =
      keyboardScanLoop mode map fuel event [rawKey event] [] buffer
        (((event.value.type).map (matchCI "keyboard")).getD false) := rfl

/-- Outer-loop step on a valid non-mouse event: the keyboard sub-scan runs on
the remaining buffer and its rules are appended. -/
theorem newJobLoop_cons_keyboard (mode : String) (map : List (String × String))
    (fuel : Nat) (b : Evt) (rest : List Evt) (rules : List Rule)
    (hsome : (assertEvent (some b)).isSome = true)
    (hnotmouse : ((b.value.type).map (matchCI "mouse")).getD false = false) :
    newJobLoop mode map (fuel + 1) (b :: rest) rules =
      match resolveKeyboardEvent mode map fuel b rest with
      | none => none
      | some (keyboardActions, rest') =>
        newJobLoop mode map fuel rest' (rules ++ keyboardActions) := by
  obtain ⟨n, hn⟩ := Option.isSome_iff_exists.mp hsome
  have hev := assertEvent_event hn
  rw [newJobLoop]
  simp only [hn, hev, hnotmouse]
  rfl

theorem newJob_none (id mode : String) (map : List (String × String))
    (fuel : Nat) (g : BufferGroup)
    (h : newJobLoop mode map fuel g.events [] = none) :
    newJob id mode map fuel g = none := by
  rw [newJob, h]
  rfl

theorem plainKeyEvent_assert {map : List (String × String)} {e : Evt}
    (h : plainKeyEvent map e = true) : (assertEvent (some e)).isSome = true := by
  simp only [plainKeyEvent, Bool.and_eq_true] at h
  exact h.1.1.1.1

theorem plainKeyEvent_notmouse {map : List (String × String)} {e : Evt}
    (h : plainKeyEvent map e = true) :
    ((e.value.type).map (matchCI "mouse")).getD false = false := by
  simp only [plainKeyEvent, Bool.and_eq_true, Bool.not_eq_eq_eq_not, Bool.not_true] at h
  exact h.1.1.2

/-! ## C5 — keyboard collapsing -/

/-- C5 (amended) — Keyboard collapsing law for runs of length at least two:
a group whose events are N ≥ 2 consecutive valid keyboard release events,
each carrying a single-character non-allow-listed key, compiles to a job with
exactly one type-sequence rule (`SendKeys` / `SendUser32Keys` via
`newKeyboardRule … false`) whose key argument is the concatenation of the N
keys in input order, followed only by the session-close rule — and no
single-key rule. (For N = 1 the sub-scan never terminates; see the
counterexample.) -/
theorem c5_keyboard_collapsing (mode id m : String) (gid : Int) (fuel : Nat)
    (es : List Evt) (hlen : 2 ≤ es.length)
    (hall : ∀ e ∈ es, plainKeyEvent includeKeyboardEventMap e = true)
    (hfuel : es.length ≤ fuel) :
    newJob id mode includeKeyboardEventMap fuel
        { id := gid, machineName := m, events := es } =
      some { driverParameters := [],
             referenceId := id,
             referenceName := "Recorded Actions Job (" ++ m ++ ")",
             referenceDescription :=
               "Job to execute all recorded actions from machine " ++ m ++ ".",
             rules := [newKeyboardRule mode
                 (String.join ((es.map rawKey).filter (· ≠ "")))
                 (es.getLastD default) false,
               closeBrowserRule] } := by
  obtain ⟨e1, rest, rfl⟩ : ∃ e1 rest, es = e1 :: rest := by
    cases es with
    | nil => simp at hlen
    | cons a l => exact ⟨a, l, rfl⟩
  have hrestne : rest ≠ [] := by
    cases rest with
    | nil => simp at hlen
    | cons _ _ => simp
  obtain ⟨f, rfl⟩ : ∃ f, fuel = f + 1 := by
    cases fuel with
    | zero => simp at hfuel
    | succ f => exact ⟨f, rfl⟩
  have h1 := hall e1 (by simp)
  rw [newJob]
  rw [newJobLoop_cons_keyboard _ _ _ _ _ _ (plainKeyEvent_assert h1)
    (plainKeyEvent_notmouse h1)]
  rw [resolveKeyboardEvent_eq, plainKeyEvent_keyboard h1]
  rw [keyboardScanLoop_plain_run mode _ rest f e1 [rawKey e1] [] hrestne
    (fun x hx => hall x (List.mem_cons_of_mem _ hx))
    (by simpa using Nat.le_of_succ_le_succ hfuel)]
  rw [show (match (some ([newKeyboardRule mode
          (String.join (([rawKey e1] ++ rest.map rawKey).filter (· ≠ "")))
          (rest.getLastD e1) false], ([] : List Evt)) :
        Option (List Rule × List Evt)) with
      | none => none
      | some (keyboardActions, rest') =>
        newJobLoop mode includeKeyboardEventMap f rest' ([] ++ keyboardActions)) =
      newJobLoop mode includeKeyboardEventMap f []
        ([] ++ [newKeyboardRule mode
          (String.join (([rawKey e1] ++ rest.map rawKey).filter (· ≠ "")))
          (rest.getLastD e1) false]) from rfl]
  rw [newJobLoop_nil]
  simp [List.getLastD_cons]
  cases rest with
  | nil => exact absurd rfl hrestne
  | cons r rs =>
    rw [List.getLast?_cons_cons, List.getLast?_eq_getLast (r :: rs) (by simp)]
    rfl

/-- A valid captured keyboard release event on machine `A` with key `k`. -/
def keyUpEvt (ts : Int) (k : String) : Evt :=
  { timestamp := ts,
    value := { event := "keyup", type := some "keyboard", machineName := "A",
               timestamp := some ts,
               chain := some { locator := some "locA", path := [{ bounds := some {} }] },
               value := some { key := some k } } }

/-- A captured `keydown` event (always rejected by `assertEvent`). -/
def keyDownEvt (ts : Int) (k : String) : Evt :=
  { timestamp := ts,
    value := { event := "keydown", type := some "keyboard", machineName := "A",
               timestamp := some ts,
               chain := some { locator := some "locA", path := [{ bounds := some {} }] },
               value := some { key := some k } } }

/-- The compile pass never finishes on this group: the fuel-indexed model of
`newJob` returns `none` for every fuel value, i.e. the source loop runs
forever. -/
def newJobHangsOn (g : BufferGroup) : Prop :=
  ∀ fuel, newJob "recorded-actions-job-a" "standard" includeKeyboardEventMap fuel g = none

/-- A group holding a single valid keyboard event (the N = 1 run). -/
def c5Group1 : BufferGroup :=
  { id := 1, machineName := "A", events := [keyUpEvt 1 "h"] }

/-- C5 counterexample — for a run of length N = 1 the claim fails: the
keyboard sub-scan enters its loop with an exhausted buffer and `isKeyboard`
still true and never exits, so `newJob` produces no job at all (no fuel value
suffices), let alone one type-sequence rule. -/
theorem c5_counterexample : newJobHangsOn c5Group1 := by
  intro fuel
  apply newJob_none
  show newJobLoop "standard" includeKeyboardEventMap fuel [keyUpEvt 1 "h"] [] = none
  cases fuel with
  | zero => rfl
  | succ f =>
    rw [newJobLoop_cons_keyboard _ _ _ _ _ _ (by decide) (by decide)]
    rw [resolveKeyboardEvent_eq]
    rw [show (((keyUpEvt 1 "h").value.type).map (matchCI "keyboard")).getD false =
      true by decide]
    rw [keyboardScanLoop_empty_diverges]

/-- The two-event run `h`, `i` used as the collapsing witness. -/
def c5Group2 : BufferGroup :=
  { id := 1, machineName := "A", events := [keyUpEvt 1 "h", keyUpEvt 2 "i"] }

/-- C5 witness — the amended collapsing theorem applied to the concrete
two-key run `h`, `i`: one `SendKeys` rule whose argument is the concatenation
`hi`, then the close rule. -/
theorem c5_witness :
    (∀ e ∈ c5Group2.events, plainKeyEvent includeKeyboardEventMap e = true) ∧
    newJob "job-a" "standard" includeKeyboardEventMap 2 c5Group2 =
      some { driverParameters := [],
             referenceId := "job-a",
             referenceName := "Recorded Actions Job (A)",
             referenceDescription :=
               "Job to execute all recorded actions from machine A.",
             rules := [newKeyboardRule "standard"
                 (String.join ((c5Group2.events.map rawKey).filter (· ≠ "")))
                 (c5Group2.events.getLastD default) false,
               closeBrowserRule] } :=
  ⟨by decide,
    c5_keyboard_collapsing "standard" "job-a" "A" 1 2 c5Group2.events
      (by decide) (by decide) (by decide)⟩

/-! ## C6 — flush order at a special key -/

/-- An event that enters the keyboard sub-scan: it survives normalization and
is typed as a keyboard (and not a mouse) event; its key is unconstrained. -/
def scanEntryEvent (e : Evt) : Bool :=
  (assertEvent (some e)).isSome
  && ((e.value.type).map (matchCI "keyboard")).getD false
  && !(((e.value.type).map (matchCI "mouse")).getD false)

theorem scanEntryEvent_assert {e : Evt} (h : scanEntryEvent e = true) :
    (assertEvent (some e)).isSome = true := by
  simp only [scanEntryEvent, Bool.and_eq_true] at h
  exact h.1.1

theorem scanEntryEvent_keyboard {e : Evt} (h : scanEntryEvent e = true) :
    ((e.value.type).map (matchCI "keyboard")).getD false = true := by
  simp only [scanEntryEvent, Bool.and_eq_true] at h
  exact h.1.2

theorem scanEntryEvent_notmouse {e : Evt} (h : scanEntryEvent e = true) :
    ((e.value.type).map (matchCI "mouse")).getD false = false := by
  simp only [scanEntryEvent, Bool.and_eq_true, Bool.not_eq_eq_eq_not, Bool.not_true] at h
  exact h.2

/-- C6 (amended) — When the keyboard sub-scan meets an allow-listed special
key while holding an accumulated key buffer, the job receives the close-out
rule for the accumulated buffer *first* (a single-key action when the buffer
is exactly one allow-listed key, else a type-sequence action) and the
dedicated single-key action for the special key *second* — the reverse of the
claimed order. -/
theorem c6_flush_order (mode id m : String) (gid : Int) (fuel : Nat)
    (e1 : Evt) (mid : List Evt) (esp : Evt)
    (h1 : scanEntryEvent e1 = true)
    (hmid : ∀ b ∈ mid, plainKeyEvent includeKeyboardEventMap b = true)
    (hesp : specialKeyEvent includeKeyboardEventMap esp = true)
    (hfuel : mid.length + 2 ≤ fuel) :
    newJob id mode includeKeyboardEventMap fuel
        { id := gid, machineName := m, events := e1 :: (mid ++ [esp]) } =
      some { driverParameters := [],
             referenceId := id,
             referenceName := "Recorded Actions Job (" ++ m ++ ")",
             referenceDescription :=
               "Job to execute all recorded actions from machine " ++ m ++ ".",
             rules := [newKeyboardRule mode
                 (if ((rawKey e1 :: mid.map rawKey).length = 1 : Bool) &&
                     (mapGet includeKeyboardEventMap
                       (toLowerStr ((rawKey e1 :: mid.map rawKey).headD ""))).isSome
                   then (rawKey e1 :: mid.map rawKey).headD ""
                   else String.join ((rawKey e1 :: mid.map rawKey).filter (· ≠ "")))
                 esp
                 (((rawKey e1 :: mid.map rawKey).length = 1 : Bool) &&
                   (mapGet includeKeyboardEventMap
                     (toLowerStr ((rawKey e1 :: mid.map rawKey).headD ""))).isSome),
               (resolveKeyboardKey mode esp includeKeyboardEventMap).rule,
               closeBrowserRule] } := by
  obtain ⟨f, rfl⟩ : ∃ f, fuel = f + 1 := by
    cases fuel with
    | zero => simp at hfuel
    | succ f => exact ⟨f, rfl⟩
  rw [newJob]
  rw [newJobLoop_cons_keyboard _ _ _ _ _ _ (scanEntryEvent_assert h1)
    (scanEntryEvent_notmouse h1)]
  rw [resolveKeyboardEvent_eq, scanEntryEvent_keyboard h1]
  rw [keyboardScanLoop_special_run mode _ mid f e1 [rawKey e1] [] esp [] hmid hesp
    (by omega)]
  simp [newJobLoop_nil]

/-- The three-key run `h`, `i`, `Enter` of the spec's special-key scenario. -/
def c6Group : BufferGroup :=
  { id := 1, machineName := "A",
    events := [keyUpEvt 1 "h", keyUpEvt 2 "i", keyUpEvt 3 "Enter"] }

/-- The type-sequence close-out rule produced for `c6Group` (`hi`). -/
def c6KeysRule : Rule :=
  newKeyboardRule "standard" "hi" (keyUpEvt 3 "Enter") false

/-- The dedicated single-key rule produced for `c6Group`'s `Enter`. -/
def c6EnterRule : Rule :=
  (resolveKeyboardKey "standard" (keyUpEvt 3 "Enter") includeKeyboardEventMap).rule

theorem newJob_c6Group :
    (newJob "job-a" "standard" includeKeyboardEventMap 4 c6Group).map (·.rules) =
      some [c6KeysRule, c6EnterRule, closeBrowserRule] := by rfl

/-- C6 counterexample — on the concrete run `h`, `i`, `Enter` the dedicated
`Enter` rule does *not* precede the close-out rule for the buffer `hi`: the
job's rule list is `[hi-rule, Enter-rule, CloseBrowser]`, so the claimed
order (special key first, buffer close-out second) is false. -/
theorem c6_counterexample :
    (newJob "job-a" "standard" includeKeyboardEventMap 4 c6Group).map (·.rules) =
      some [c6KeysRule, c6EnterRule, closeBrowserRule] ∧
    ¬ ([c6KeysRule, c6EnterRule, closeBrowserRule].indexOf c6EnterRule <
        [c6KeysRule, c6EnterRule, closeBrowserRule].indexOf c6KeysRule) := by
  exact ⟨newJob_c6Group, by decide⟩

/-- C6 witness — the amended theorem applied to the run `h`, `Enter`: the
close-out rule (type sequence `h`) comes first, then the dedicated `Enter`
rule, then the close rule. -/
theorem c6_witness :
    scanEntryEvent (keyUpEvt 1 "h") = true ∧
    specialKeyEvent includeKeyboardEventMap (keyUpEvt 2 "Enter") = true ∧
    newJob "job-a" "standard" includeKeyboardEventMap 2
        { id := 1, machineName := "A",
          events := keyUpEvt 1 "h" :: ([] ++ [keyUpEvt 2 "Enter"]) } =
      some { driverParameters := [],
             referenceId := "job-a",
             referenceName := "Recorded Actions Job (A)",
             referenceDescription :=
               "Job to execute all recorded actions from machine A.",
             rules := [newKeyboardRule "standard"
                 (if ((rawKey (keyUpEvt 1 "h") :: ([] : List Evt).map rawKey).length = 1 : Bool) &&
                     (mapGet includeKeyboardEventMap
                       (toLowerStr ((rawKey (keyUpEvt 1 "h") :: ([] : List Evt).map rawKey).headD ""))).isSome
                   then (rawKey (keyUpEvt 1 "h") :: ([] : List Evt).map rawKey).headD ""
                   else String.join ((rawKey (keyUpEvt 1 "h") :: ([] : List Evt).map rawKey).filter (· ≠ "")))
                 (keyUpEvt 2 "Enter")
                 (((rawKey (keyUpEvt 1 "h") :: ([] : List Evt).map rawKey).length = 1 : Bool) &&
                   (mapGet includeKeyboardEventMap
                     (toLowerStr ((rawKey (keyUpEvt 1 "h") :: ([] : List Evt).map rawKey).headD ""))).isSome),
               (resolveKeyboardKey "standard" (keyUpEvt 2 "Enter") includeKeyboardEventMap).rule,
               closeBrowserRule] } :=
  ⟨by decide, by decide,
    c6_flush_order "standard" "job-a" "A" 1 2 (keyUpEvt 1 "h") []
      (keyUpEvt 2 "Enter") (by decide) (by decide) (by decide) (by decide)⟩

/-! ## C10 — the keyboard sub-scan does not always terminate -/

/-- The failing input of the termination claim: a valid `keyup` followed by a
`keydown`. The peeked `keydown` keeps `isKeyboard` truthy, is shifted and
rejected by `assertEvent`, and the loop then spins on the empty buffer
without ever updating `isKeyboard`. -/
def c10Group : BufferGroup :=
  { id := 1, machineName := "A", events := [keyUpEvt 1 "h", keyDownEvt 2 "i"] }

/-- C10 — the claim is falsified by the code: on `c10Group` the inner `while`
loop of `resolveKeyboardEvent` never exits, so the fuel-indexed model of
`newJob` returns `none` for every fuel value (each unit of fuel is one source
loop iteration); the source program loops forever. -/
theorem c10_scan_diverges : newJobHangsOn c10Group := by
  intro fuel
  apply newJob_none
  show newJobLoop "standard" includeKeyboardEventMap fuel
    [keyUpEvt 1 "h", keyDownEvt 2 "i"] [] = none
  cases fuel with
  | zero => rfl
  | succ f =>
    rw [newJobLoop_cons_keyboard _ _ _ _ _ _ (by decide) (by decide)]
    rw [resolveKeyboardEvent_eq]
    rw [show (((keyUpEvt 1 "h").value.type).map (matchCI "keyboard")).getD false =
      true by decide]
    cases f with
    | zero => rfl
    | succ f2 =>
      rw [keyboardScanLoop_cons_invalid _ _ _ _ _ _ _ _ (by decide)]
      rw [keyboardScanLoop_empty_diverges]

/-! ## C7 — driver parameters of the assembled jobs -/

theorem newJob_dp (id mode : String) (map : List (String × String)) (fuel : Nat)
    (g : BufferGroup) (job : Job) (h : newJob id mode map fuel g = some job) :
    job.driverParameters = [] := by
  rcases Option.map_eq_some'.mp h with ⟨scanned, _, hjob⟩
  subst hjob
  rfl

/-- The driver parameters a non-first job ends up with: empty when the
group's `baseUrl` resolves to no connection, the resolved connection's driver
parameters otherwise. -/
def groupDP (connections : List EventCaptureService) (g : BufferGroup) :
    DriverParameters :=
  match groupConnection connections g with
  | none => []
  | some c => (c.options.driverParameters).getD []

theorem buildJobs_dp (connections : List EventCaptureService)
    (map : List (String × String)) (fuel : Nat) :
    ∀ (gs : List BufferGroup) (i0 : Nat) (jobs : List Job),
      buildJobs connections map fuel i0 gs = some jobs →
      jobs.length = gs.length ∧
      ∀ j (hj : j < jobs.length),
        (jobs.get ⟨j, hj⟩).driverParameters =
          if i0 + j = 0 then []
          else match gs.get? j with
               | none => []
               | some g => groupDP connections g := by
  intro gs
  induction gs with
  | nil =>
    intro i0 jobs h
    rw [buildJobs] at h
    rw [Option.some_inj] at h
    subst h
    exact ⟨rfl, fun j hj => absurd hj (by simp)⟩
  | cons g rest ih =>
    intro i0 jobs h
    rw [buildJobs] at h
    split at h
    · exact absurd h (by simp)
    · rename_i job hjob
      rcases Option.map_eq_some'.mp h with ⟨jobs', hrest, hjobs⟩
      subst hjobs
      obtain ⟨hlen, hdp⟩ := ih (i0 + 1) jobs' hrest
      refine ⟨by simp [hlen], ?_⟩
      intro j hj
      cases j with
      | zero =>
        simp only [List.get]
        rw [Nat.add_zero]
        by_cases hz : i0 = 0
        · subst hz
          rw [if_pos rfl, if_neg (by simp)]
          exact newJob_dp _ _ _ _ _ _ hjob
        · rw [if_neg hz, if_pos hz]
          rw [List.get?_cons_zero]
          rcases hconn : groupConnection connections g with _ | c
          · simp only [hconn, groupDP]
            exact newJob_dp _ _ _ _ _ _ hjob
          · simp only [hconn, groupDP]
      | succ j' =>
        have hj' : j' < jobs'.length := by simpa using hj
        have hstep := hdp j' hj'
        simp only [List.get_cons_succ]
        rw [hstep]
        rw [show i0 + 1 + j' = i0 + (j' + 1) by omega]
        rw [if_neg (by omega), if_neg (by omega)]
        rfl

/-- C7 (amended) — Driver parameters of the compile pass: the session's
primary driver parameters (those of the connection `getFirstCaptureService`
returns — consulted after the buffers are cleared) are carried by the
automation document itself, *not* by the first job; the first job's driver
parameters are always empty, and every subsequent job carries the driver
parameters of the connection its group's `baseUrl` resolves to when such a
connection exists (because of the `baseUrl` assignment this can only be the
last group), and empty driver parameters otherwise. -/
theorem c7_driver_parameters (fuel : Nat)
    (connections : List EventCaptureService) (manifest : Manifest)
    (auto : Automation) (h : onInvokeCommand fuel connections manifest = some auto) :
    auto.driverParameters =
      ((getFirstCaptureService (connections.map fun s => { s with buffer := [] })).bind
        (·.options.driverParameters)).getD []
    ∧ ∀ s ∈ auto.stages, ∀ i (hi : i < s.jobs.length),
        (s.jobs.get ⟨i, hi⟩).driverParameters =
          if i = 0 then []
          else match (newBufferGroups (mergedBuffer connections)).get? i with
               | none => []
               | some g => groupDP connections g := by
  rw [onInvokeCommand] at h
  split at h
  · exact absurd h (by simp)
  · rename_i initialConnection hinit
    split at h
    · exact absurd h (by simp)
    · rcases Option.map_eq_some'.mp h with ⟨jobs, hjobs, hauto⟩
      subst hauto
      obtain ⟨_, hdp⟩ := buildJobs_dp connections includeKeyboardEventMap fuel
        (newBufferGroups (mergedBuffer connections)) 0 jobs hjobs
      constructor
      · rw [hinit]
        rfl
      · intro s hs i hi
        have hstage : s = { jobs := jobs } := by
          simpa [newAutomation] using hs
        subst hstage
        have := hdp i hi
        simpa using this

/-- The single capture connection of the concrete compile pass: it supplies
driver parameters and buffered two machines' events. -/
def c7Conn : EventCaptureService :=
  { options := { baseUrl := "u1", driverParameters := some [("browser", "chrome")] },
    buffer :=
      [{ timestamp := 1, value := { event := "z", machineName := "A" } },
       { timestamp := 2, value := { event := "z", machineName := "B" } }] }

/-- The automation the concrete pass produces: the primary driver parameters
sit on the document, the first job's are empty, the last job's come from the
connection resolved through the last group's `baseUrl`. -/
def c7Auto : Automation :=
  { authenticationToken := "",
    driverParameters := [("browser", "chrome")],
    settings := [],
    stages := [{ jobs :=
      [{ driverParameters := [],
         referenceId := "recorded-actions-job-a",
         referenceName := "Recorded Actions Job (A)",
         referenceDescription := "Job to execute all recorded actions from machine A.",
         rules := [closeBrowserRule] },
       { driverParameters := [("browser", "chrome")],
         referenceId := "recorded-actions-job-b",
         referenceName := "Recorded Actions Job (B)",
         referenceDescription := "Job to execute all recorded actions from machine B.",
         rules := [closeBrowserRule] }] }] }

/-- With a single connection, `getFirstCaptureService` short-circuits and the
compile pass reduces to segmentation plus job building (everything here is
definitional). -/
theorem onInvokeCommand_single (fuel : Nat) (c : EventCaptureService)
    (manifest : Manifest) :
    onInvokeCommand fuel [c] manifest =
      if (newBufferGroups (mergedBuffer [c])).isEmpty then none
      else
        (buildJobs [c] includeKeyboardEventMap fuel 0
          (newBufferGroups (mergedBuffer [c]))).map fun jobs =>
          { authenticationToken := manifest.authenticationToken.getD "",
            driverParameters := (c.options.driverParameters).getD [],
            settings := manifest.settings.getD [],
            stages := [{ jobs := jobs }] } := rfl

theorem onInvoke_c7 : onInvokeCommand 2 [c7Conn] { } = some c7Auto := by
  have hgroups : newBufferGroups (mergedBuffer [c7Conn]) =
      [{ id := 1, machineName := "A",
         events := [{ timestamp := 1, baseUrl := some "u1",
                      value := { event := "z", machineName := "A" } }] },
       { id := 2, machineName := "B", baseUrl := some "u1",
         events := [{ timestamp := 2, baseUrl := some "u1",
                      value := { event := "z", machineName := "B" } }] }] := by
    rw [show mergedBuffer [c7Conn] =
      [{ timestamp := 1, baseUrl := some "u1",
         value := { event := "z", machineName := "A" } },
       { timestamp := 2, baseUrl := some "u1",
         value := { event := "z", machineName := "B" } }] from by decide]
    rw [newBufferGroups, chunkByMachine]
    simp [mkGroups, setLastBaseUrl, chunkByMachine]
  rw [onInvokeCommand_single, hgroups]
  decide

/-- C7 counterexample — on a concrete single-connection pass with non-empty
driver parameters and two groups, the first job does *not* carry the
session's primary driver parameters: the automation document carries them,
the first job's are empty. -/
theorem c7_counterexample :
    onInvokeCommand 2 [c7Conn] { } = some c7Auto ∧
    (c7Conn.options.driverParameters).getD [] = [("browser", "chrome")] ∧
    (c7Auto.stages.map (·.jobs.map (·.driverParameters))) =
      [[[], [("browser", "chrome")]]] ∧
    ([] : DriverParameters) ≠ [("browser", "chrome")] :=
  ⟨onInvoke_c7, rfl, by decide, by decide⟩

/-- C7 witness — the amended theorem applied to the concrete pass: the
automation document carries the primary driver parameters of the connection
`getFirstCaptureService` returns. -/
theorem c7_witness :
    onInvokeCommand 2 [c7Conn] { } = some c7Auto ∧
    c7Auto.driverParameters =
      ((getFirstCaptureService ([c7Conn].map fun s => { s with buffer := [] })).bind
        (·.options.driverParameters)).getD [] :=
  ⟨onInvoke_c7, (c7_driver_parameters 2 [c7Conn] { } c7Auto onInvoke_c7).1⟩

end G4
